import Mathlib

/-!
Shallow embedding of the chat-app server core (eliseuv/chat-app).

The Rust sources embedded here:
* `src/server/src/server.rs` — the dispatcher (`Server::run` and its helpers),
  access token parsing and rendering;
* `src/server/src/server_specs.rs` — the revision of `Token::from_str` that
  rejects non-ASCII input before slicing;
* `src/server/src/client.rs` — the per-connection worker (`Client::rate_limiter`,
  `parse_text`, the read-loop body of `Client::run`);
* `src/src/utils.rs` — `insert_or_get_mut`.

Machine integers are modelled as `Nat`/`Int`; `chrono` timestamps and
durations are modelled as milliseconds (`Int`); Rust `HashMap`s are modelled
as association lists whose operations mirror `HashMap::get`, `insert`,
`remove` and the `Entry` API used by `insert_or_get_mut`.
-/

namespace ChatApp

/-! ## Association-list model of `std::collections::HashMap` -/

section AssocMap

variable {K V : Type} [DecidableEq K]

/-- `HashMap::get`: value of the first binding of `k`, if any. -/
def lookup : List (K × V) → K → Option V
  | [], _ => none
  | p :: ps, k => if p.1 = k then some p.2 else lookup ps k

/-- `HashMap::contains_key`. -/
def containsKey (m : List (K × V)) (k : K) : Bool :=
  (lookup m k).isSome

/-- `HashMap::remove`: removes the binding of `k` (the first one, which under
the no-duplicate-keys invariant of a `HashMap` is the only one). -/
def eraseKey : List (K × V) → K → List (K × V)
  | [], _ => []
  | p :: ps, k => if p.1 = k then ps else p :: eraseKey ps k

/-- `HashMap::insert`: replaces the value bound to `k` in place, or appends a
new binding. -/
def insertMap : List (K × V) → K → V → List (K × V)
  | [], k, v => [(k, v)]
  | p :: ps, k, v => if p.1 = k then (k, v) :: ps else p :: insertMap ps k v

/-- `insert_or_get_mut` (src/src/utils.rs): the `Entry` API — an occupied
entry is kept, a vacant one is filled with `v`. -/
def insertOrGet (m : List (K × V)) (k : K) (v : V) : List (K × V) :=
  if containsKey m k then m else m ++ [(k, v)]

@[simp]
theorem lookup_nil (k : K) : lookup ([] : List (K × V)) k = none := rfl

@[simp]
theorem lookup_cons (p : K × V) (ps : List (K × V)) (k : K) :
    lookup (p :: ps) k = if p.1 = k then some p.2 else lookup ps k := rfl

theorem lookup_insertMap_self (m : List (K × V)) (k : K) (v : V) :
    lookup (insertMap m k v) k = some v := by
  induction m with
  | nil => simp [insertMap]
  | cons p ps ih =>
    by_cases h : p.1 = k <;> simp [insertMap, h, ih]

theorem lookup_insertMap_ne (m : List (K × V)) (k k' : K) (v : V) (h : k ≠ k') :
    lookup (insertMap m k v) k' = lookup m k' := by
  induction m with
  | nil => simp [insertMap, h]
  | cons p ps ih =>
    by_cases hp : p.1 = k
    · simp [insertMap, hp, h]
    · simp [insertMap, hp, ih]

theorem lookup_of_not_mem_keys (m : List (K × V)) (k : K)
    (h : ∀ q ∈ m, q.1 ≠ k) : lookup m k = none := by
  induction m with
  | nil => rfl
  | cons q qs ih =>
    simp only [lookup_cons, if_neg (h q (List.mem_cons_self q qs))]
    exact ih (fun r hr => h r (List.mem_cons_of_mem q hr))

theorem lookup_eraseKey_self (m : List (K × V)) (k : K)
    (hnd : (m.map Prod.fst).Nodup) :
    lookup (eraseKey m k) k = none := by
  induction m with
  | nil => simp [eraseKey]
  | cons p ps ih =>
    rw [List.map_cons, List.nodup_cons] at hnd
    by_cases hp : p.1 = k
    · subst hp
      simp only [eraseKey, if_pos rfl]
      exact lookup_of_not_mem_keys ps p.1
        (fun q hq hqe => hnd.1 (hqe ▸ List.mem_map_of_mem Prod.fst hq))
    · simp [eraseKey, hp, ih hnd.2]

theorem lookup_eraseKey_ne (m : List (K × V)) (k k' : K) (h : k ≠ k') :
    lookup (eraseKey m k) k' = lookup m k' := by
  induction m with
  | nil => simp [eraseKey]
  | cons p ps ih =>
    by_cases hp : p.1 = k
    · rw [eraseKey, if_pos hp, lookup_cons, hp, if_neg h]
    · simp [eraseKey, hp, ih]

theorem lookup_append_single_ne (m : List (K × V)) (k k' : K) (v : V) (h : k ≠ k') :
    lookup (m ++ [(k, v)]) k' = lookup m k' := by
  induction m with
  | nil => simp [h]
  | cons p ps ih => by_cases hp : p.1 = k' <;> simp [hp, ih]

theorem lookup_insertOrGet_self (m : List (K × V)) (k : K) (v : V) :
    lookup (insertOrGet m k v) k = some ((lookup m k).getD v) := by
  unfold insertOrGet containsKey
  cases hm : lookup m k with
  | some w => simp [hm]
  | none =>
    simp only [hm, Option.isSome_none, Bool.false_eq_true, if_false, Option.getD_none]
    induction m with
    | nil => simp
    | cons p ps ih =>
      simp only [lookup_cons] at hm
      by_cases hp : p.1 = k
      · simp [hp] at hm
      · simp only [List.cons_append, lookup_cons, if_neg hp]
        exact ih (by simpa [hp] using hm)

theorem lookup_insertOrGet_ne (m : List (K × V)) (k k' : K) (v : V) (h : k ≠ k') :
    lookup (insertOrGet m k v) k' = lookup m k' := by
  unfold insertOrGet
  split
  · rfl
  · exact lookup_append_single_ne m k k' v h

theorem length_insertMap (m : List (K × V)) (k : K) (v : V) :
    (insertMap m k v).length = if containsKey m k then m.length else m.length + 1 := by
  induction m with
  | nil => simp [insertMap, containsKey]
  | cons p ps ih =>
    by_cases hp : p.1 = k
    · simp [insertMap, hp, containsKey]
    · simp only [insertMap, if_neg hp, List.length_cons, ih, containsKey, lookup_cons, if_neg hp]
      split <;> rfl

theorem length_insertOrGet (m : List (K × V)) (k : K) (v : V) :
    (insertOrGet m k v).length = if containsKey m k then m.length else m.length + 1 := by
  unfold insertOrGet
  split <;> simp_all

theorem length_le_insertOrGet (m : List (K × V)) (k : K) (v : V) :
    m.length ≤ (insertOrGet m k v).length := by
  rw [length_insertOrGet]
  split <;> omega

theorem lookup_insertOrGet_new (m : List (K × V)) (k : K) (v : V)
    (h : lookup m k = none) : lookup (insertOrGet m k v) k = some v := by
  rw [lookup_insertOrGet_self, h]
  rfl

theorem insertOrGet_of_mem (m : List (K × V)) (k : K) (v : V)
    (h : containsKey m k = true) : insertOrGet m k v = m := by
  unfold insertOrGet
  rw [if_pos h]

end AssocMap

/-! ## Time

`chrono::DateTime<Utc>` instants and `chrono::TimeDelta` durations are
modelled as milliseconds (`Int`).  `TimeDelta::num_seconds` truncates toward
zero, which on the millisecond model is `Int.tdiv · 1000`. -/

/-- `TimeDelta::num_seconds` on a duration in milliseconds: whole seconds,
truncated toward zero. -/
def numSeconds (ms : Int) : Int := Int.tdiv ms 1000

theorem numSeconds_pos_iff (ms : Int) : 0 < numSeconds ms ↔ 1000 ≤ ms := by
  unfold numSeconds
  constructor
  · intro h
    by_contra hc
    push_neg at hc
    rcases le_or_lt 0 ms with hx | hx
    · rw [Int.tdiv_eq_zero_of_lt hx hc] at h
      exact lt_irrefl 0 h
    · have h2 : Int.tdiv ms 1000 = -Int.tdiv (-ms) 1000 := by
        rw [← Int.neg_tdiv, neg_neg]
      have h3 : 0 ≤ Int.tdiv (-ms) 1000 := Int.tdiv_nonneg (by omega) (by omega)
      omega
  · intro h
    have hx : (0:Int) ≤ ms := by omega
    rw [Int.tdiv_eq_ediv hx (by omega)]
    have := (Int.le_ediv_iff_mul_le (a := 1) (b := ms) (c := 1000) (by omega)).mpr (by omega)
    omega

/-! ## Access token (src/server/src/server_specs.rs)

A `&str` is modelled as its UTF-8 byte sequence (`List Nat`): `str::len` is
the byte length, `str::is_ascii` checks every byte `< 128`, and byte-indexed
slicing is list indexing. -/

/-- `TOKEN_LENGTH`: token size in raw bytes. -/
def TOKEN_LENGTH : Nat := 8

/-- The 8 raw bytes of an access token (`Token(pub [u8; TOKEN_LENGTH])`). -/
structure Token where
  bytes : List Nat
deriving DecidableEq, Repr

deriving instance DecidableEq for Except

/-- The two error kinds of the spec's token-parsing taxonomy:
`InvalidTokenFormat` (non-ASCII or wrong length) and `InvalidTokenDigit`
(a failing `u8::from_str_radix`). -/
inductive TokenError where
  | invalidFormat
  | invalidDigit
deriving DecidableEq, Repr

/-- Value of an ASCII byte as a hexadecimal digit, as accepted by
`u8::from_str_radix(_, 16)`: `0`-`9`, `A`-`F`, `a`-`f`. -/
def hexVal (b : Nat) : Option Nat :=
  if 48 ≤ b ∧ b ≤ 57 then some (b - 48)
  else if 65 ≤ b ∧ b ≤ 70 then some (b - 55)
  else if 97 ≤ b ∧ b ≤ 102 then some (b - 87)
  else none

/-- `u8::from_str_radix(s, 16)` on a two-byte slice `s`.  Per its
documentation, an optional leading plus sign (byte 43) is accepted before
the digits; a two-hex-digit value never overflows `u8`. -/
def fromStrRadix16Pair (b1 b2 : Nat) : Option Nat :=
  if b1 = 43 then hexVal b2
  else
    match hexVal b1, hexVal b2 with
    | some h, some l => some (16 * h + l)
    | _, _ => none

/-- The decoding loop of `Token::from_str`: one output byte per two input
bytes, failing with `InvalidTokenDigit` when `from_str_radix` fails. -/
def decodePairs : List Nat → Except TokenError (List Nat)
  | [] => .ok []
  | b1 :: b2 :: rest =>
    match fromStrRadix16Pair b1 b2 with
    | some v =>
      match decodePairs rest with
      | .ok vs => .ok (v :: vs)
      | .error e => .error e
    | none => .error .invalidDigit
  | [_] => .error .invalidDigit

/-- `Token::from_str` (src/server/src/server_specs.rs:34-59): reject
non-ASCII, reject byte length ≠ 16, then decode two hex nibbles per output
byte. -/
def Token.fromStr (s : List Nat) : Except TokenError Token :=
  if ¬ s.all (fun b => b < 128) then .error .invalidFormat
  else if s.length ≠ 2 * TOKEN_LENGTH then .error .invalidFormat
  else
    match decodePairs s with
    | .ok vs => .ok ⟨vs⟩
    | .error e => .error e

/-- ASCII byte of the uppercase hexadecimal digit of value `n < 16`
(the formatting `{b:02X}` of `Display for Token`). -/
def hexDigitUpper (n : Nat) : Nat :=
  if n < 10 then 48 + n else 55 + n

/-- The two uppercase hex bytes of one token byte (`{b:02X}`). -/
def byteHex (b : Nat) : List Nat := [hexDigitUpper (b / 16), hexDigitUpper (b % 16)]

/-- `Display for Token` (src/server/src/server.rs:62-69 and
src/server/src/server_specs.rs:62-69): each byte printed as two uppercase
hex digits. -/
def Token.render (t : Token) : List Nat :=
  (t.bytes.map byteHex).flatten

/-! ## UTF-8 validation (`str::from_utf8`)

Rust accepts exactly the RFC 3629 encoding: no overlong forms, no surrogate
code points, nothing above U+10FFFF. -/

/-- A UTF-8 continuation byte, `0x80`-`0xBF`. -/
def isCont (b : Nat) : Bool := 128 ≤ b && b ≤ 191

/-- `str::from_utf8(bytes).is_ok()`. -/
def utf8Valid : List Nat → Bool
  | [] => true
  | b :: rest =>
    if b < 128 then utf8Valid rest
    else if 194 ≤ b ∧ b ≤ 223 then
      match rest with
      | b1 :: rest2 => isCont b1 && utf8Valid rest2
      | [] => false
    else if b = 224 then
      match rest with
      | b1 :: b2 :: rest2 => (160 ≤ b1 && b1 ≤ 191) && isCont b2 && utf8Valid rest2
      | _ => false
    else if (225 ≤ b ∧ b ≤ 236) ∨ b = 238 ∨ b = 239 then
      match rest with
      | b1 :: b2 :: rest2 => isCont b1 && isCont b2 && utf8Valid rest2
      | _ => false
    else if b = 237 then
      match rest with
      | b1 :: b2 :: rest2 => (128 ≤ b1 && b1 ≤ 159) && isCont b2 && utf8Valid rest2
      | _ => false
    else if b = 240 then
      match rest with
      | b1 :: b2 :: b3 :: rest2 =>
        (144 ≤ b1 && b1 ≤ 191) && isCont b2 && isCont b3 && utf8Valid rest2
      | _ => false
    else if 241 ≤ b ∧ b ≤ 243 then
      match rest with
      | b1 :: b2 :: b3 :: rest2 => isCont b1 && isCont b2 && isCont b3 && utf8Valid rest2
      | _ => false
    else if b = 244 then
      match rest with
      | b1 :: b2 :: b3 :: rest2 =>
        (128 ≤ b1 && b1 ≤ 143) && isCont b2 && isCont b3 && utf8Valid rest2
      | _ => false
    else false

/-! ## Addresses and stream handles -/

/-- `std::net::SocketAddr`: the `(IP, port)` pair of the remote socket. -/
structure SocketAddr where
  ip : Nat
  port : Nat
deriving DecidableEq, Repr

/-- An `Arc<TcpStream>` handle.  `peerAddr` is what `TcpStream::peer_addr`
reports; `sid` distinguishes distinct sockets with the same peer address. -/
structure Stream where
  peerAddr : SocketAddr
  sid : Nat
deriving DecidableEq, Repr

/-! ## Connection worker (src/server/src/client.rs) -/

/-- `MESSAGE_COOLDOWN_TIME = TimeDelta::milliseconds(300)`. -/
def MESSAGE_COOLDOWN_TIME_MS : Int := 300

/-- `MAX_STRIKE_COUNT: u32 = 5`. -/
def MAX_STRIKE_COUNT : Nat := 5

/-- `parse_text` (src/server/src/client.rs:26-32): drop bytes `< 32`, then
validate UTF-8.  The returned `String` is represented by its UTF-8 bytes. -/
def parseText (bytes : List Nat) : Option (List Nat) :=
  let bytesSafe := bytes.filter (fun c => 32 ≤ c)
  if utf8Valid bytesSafe then some bytesSafe else none

/-- The worker-local rate-limiter state: `last_message_time` and
`strike_count` fields of `Client`. -/
structure RateState where
  lastMessageTime : Int
  strikeCount : Nat
deriving DecidableEq, Repr

/-- `Client::rate_limiter` (src/server/src/client.rs:109-130).  Returns the
updated state and the "ban the client" flag. -/
def rateLimiter (st : RateState) (now : Int) : RateState × Bool :=
  if now - st.lastMessageTime < MESSAGE_COOLDOWN_TIME_MS then
    let strikes := st.strikeCount + 1
    if MAX_STRIKE_COUNT ≤ strikes then
      ({ lastMessageTime := st.lastMessageTime, strikeCount := 0 }, true)
    else
      ({ lastMessageTime := now, strikeCount := strikes }, false)
  else
    ({ lastMessageTime := now, strikeCount := 0 }, false)

/-- `BanReason` (src/server/src/requests.rs). -/
inductive BanReason where
  | spamming
  | other (reason : String)
deriving DecidableEq, Repr

/-- `Request` (src/server/src/requests.rs): what a worker sends to the
dispatcher. -/
inductive Request where
  | connect (stream : Stream)
  | disconnect
  | ban (reason : BanReason)
  | broadcast (text : List Nat)
deriving DecidableEq, Repr

/-- Outcome of one iteration of the worker's chat loop: either the loop
terminates (`stop`) or it continues (`next`); in both cases with the
updated rate-limiter state and the requests sent to the dispatcher. -/
inductive WorkerOutcome where
  | stop (st : RateState) (reqs : List Request)
  | next (st : RateState) (reqs : List Request)
deriving DecidableEq, Repr

/-- One iteration of the chat loop of `Client::run`
(src/server/src/client.rs:176-203): rate-limit, then handle the bytes read
from the stream (`[]` models EOF). -/
def Client.runStep (st : RateState) (now : Int) (bytes : List Nat) : WorkerOutcome :=
  match rateLimiter st now with
  | (st1, true) => .stop st1 [.ban .spamming]
  | (st1, false) =>
    if bytes.isEmpty then .stop st1 [.disconnect]
    else
      match parseText bytes with
      | none => .next st1 []
      | some text => .next st1 [.broadcast text]

/-! ## Dispatcher (src/server/src/server.rs) -/

/-- `TOTAL_BAN_TIME = TimeDelta::seconds(5 * 60)`, in milliseconds. -/
def TOTAL_BAN_TIME_MS : Int := 300000

/-- `ClientInfo` (src/server/src/server.rs:71-84). -/
structure ClientInfo where
  id : Nat
  authTimestamp : Option Int
deriving DecidableEq, Repr

/-- `ClientInfo::new`: fresh info with no authentication timestamp. -/
def ClientInfo.new (id : Nat) : ClientInfo := ⟨id, none⟩

/-- `MessageContent` (src/server/src/local_messages.rs). -/
inductive MessageContent where
  | connectRequest (stream : Stream)
  | disconnectRequest
  | banMe
  | bytes (bs : List Nat)
deriving DecidableEq, Repr

/-- `Destination` (src/server/src/local_messages.rs). -/
inductive Destination where
  | server
  | allClients
deriving DecidableEq, Repr

/-- `LocalMessage` (src/server/src/local_messages.rs). -/
structure LocalMessage where
  authorAddr : SocketAddr
  destination : Destination
  timestamp : Int
  content : MessageContent
deriving DecidableEq, Repr

/-- The fixed texts the dispatcher may write before shutting a stream. -/
inductive Notice where
  | banMessage
  | invalidToken
deriving DecidableEq, Repr

/-- Observable side effects of one dispatcher iteration: write attempts on
peer sockets and socket shutdowns, in program order. -/
inductive Event where
  | writeTokenChallenge (target : Stream)
  | writeWelcome (target : Stream) (id : Nat)
  | writeBannedNotice (target : Stream) (remainingSecs : Int)
  | writeNotice (target : Stream) (n : Notice)
  | writeUserFrame (target : Stream) (authorId : Nat) (body : List Nat)
  | shutdown (target : Stream)
deriving DecidableEq, Repr

/-- The dispatcher-owned state of `Server` (src/server/src/server.rs:88-95).
The `receiver` channel endpoint is external input and not part of the
state. -/
structure ServerState where
  accessToken : Token
  banList : List (Nat × Int)
  clients : List (SocketAddr × ClientInfo)
  conns : List (SocketAddr × Stream)
  waitList : List (SocketAddr × Stream)
deriving DecidableEq, Repr

namespace Server

/-- Result of `Server::ban_filter`. -/
structure BanFilterResult where
  state : ServerState
  events : List Event
  banned : Bool
deriving Repr

/-- `Server::ban_filter` (src/server/src/server.rs:195-247). -/
def banFilter (st : ServerState) (now : Int) (msg : LocalMessage) : BanFilterResult :=
  let authorAddr := msg.authorAddr
  let authorIp := authorAddr.ip
  match lookup st.banList authorIp with
  | some bannedAt =>
    let remainingSecs := numSeconds (bannedAt + TOTAL_BAN_TIME_MS - now)
    if 0 < remainingSecs then
      match lookup st.conns authorAddr with
      | some stream =>
        { state := { st with conns := eraseKey st.conns authorAddr },
          events := [.writeBannedNotice stream remainingSecs, .shutdown stream],
          banned := true }
      | none =>
        match msg.content with
        | .connectRequest stream =>
          { state := st,
            events := [.writeBannedNotice stream remainingSecs, .shutdown stream],
            banned := true }
        | _ => { state := st, events := [], banned := true }
    else
      { state := { st with banList := eraseKey st.banList authorIp },
        events := [], banned := false }
  | none => { state := st, events := [], banned := false }

/-- `Server::connect_client` (src/server/src/server.rs:116-145).  The write
oracle `wok` tells whether a `write_all`+`flush` on a given stream
succeeds.  Returns the new state, emitted events, and `Ok`/`Err`. -/
def connectClient (st : ServerState) (wok : Stream → Bool) (addr : SocketAddr)
    (stream : Stream) : ServerState × List Event × Bool :=
  if stream.peerAddr ≠ addr then (st, [], false)
  else if containsKey st.conns addr then (st, [], true)
  else
    match lookup st.clients addr with
    | some client =>
      if client.authTimestamp = none then
        if wok stream then
          ({ st with waitList := insertMap st.waitList addr stream },
           [.writeTokenChallenge stream], true)
        else (st, [.writeTokenChallenge stream], false)
      else
        ({ st with waitList := insertMap st.waitList addr stream }, [], true)
    | none => (st, [], true)

/-- `Server::disconnect_client` (src/server/src/server.rs:147-158). -/
def disconnectClient (st : ServerState) (addr : SocketAddr) :
    ServerState × List Event × Bool :=
  match lookup st.conns addr with
  | none => (st, [], false)
  | some stream =>
    ({ st with conns := eraseKey st.conns addr }, [.shutdown stream], true)

/-- `Server::shutdown_client` (src/server/src/server.rs:249-265): look in
`wait_list` first, else `conns`; write the optional final text; shut the
stream down. -/
def shutdownClient (st : ServerState) (addr : SocketAddr) (text : Option Notice) :
    ServerState × List Event :=
  match lookup st.waitList addr with
  | some stream =>
    ({ st with waitList := eraseKey st.waitList addr },
     (match text with | some n => [Event.writeNotice stream n] | none => []) ++
       [Event.shutdown stream])
  | none =>
    match lookup st.conns addr with
    | some stream =>
      ({ st with conns := eraseKey st.conns addr },
       (match text with | some n => [Event.writeNotice stream n] | none => []) ++
         [Event.shutdown stream])
    | none => (st, [])

/-- `Server::ban_client` (src/server/src/server.rs:267-283): record the ban
timestamp for the IP, then shut the client down with the ban message. -/
def banClient (st : ServerState) (now : Int) (addr : SocketAddr) :
    ServerState × List Event :=
  let st1 := { st with banList := insertMap st.banList addr.ip now }
  shutdownClient st1 addr (some .banMessage)

/-- `Server::authenticate_client` (src/server/src/server.rs:285-321).
`bytesSafe` are the control-stripped bytes of the submission.  Mirrors the
early-return (`?`/`bail!`) structure of the source; the `Bool` is
`Ok`/`Err`. -/
def authenticateClient (st : ServerState) (now : Int) (wok : Stream → Bool)
    (addr : SocketAddr) (bytesSafe : List Nat) : ServerState × List Event × Bool :=
  if bytesSafe.length ≠ 2 * TOKEN_LENGTH then (st, [], false)
  else if ¬ utf8Valid bytesSafe then (st, [], false)
  else
    match decodePairs bytesSafe with
    | .error _ => (st, [], false)
    | .ok vs =>
      if Token.mk vs = st.accessToken then
        match lookup st.clients addr with
        | none => (st, [], false)
        | some client =>
          let st1 := { st with
            clients := insertMap st.clients addr { client with authTimestamp := some now } }
          match lookup st1.waitList addr with
          | none => (st1, [], false)
          | some stream =>
            let st2 := { st1 with waitList := eraseKey st1.waitList addr }
            if wok stream then
              ({ st2 with conns := insertMap st2.conns addr stream },
               [.writeWelcome stream client.id], true)
            else (st2, [.writeWelcome stream client.id], false)
      else (st, [], false)

/-- `Server::broadcast_message` (src/server/src/server.rs:161-188): write
the `"user <id>: "`-framed body to every connection except the author's.
Takes `&self`: no state change.  A failed write is only logged, so the
event list does not depend on write outcomes. -/
def broadcastMessage (st : ServerState) (authorAddr : SocketAddr)
    (body : List Nat) : List Event :=
  match lookup st.clients authorAddr with
  | none => []
  | some ci =>
    (st.conns.filter (fun p => p.1 ≠ authorAddr)).map
      (fun p => Event.writeUserFrame p.2 ci.id body)

end Server

/-- What `self.receiver.recv()` produced: `Err` (channel closed) or a
message. -/
inductive RecvResult where
  | err
  | ok (msg : LocalMessage)
deriving DecidableEq, Repr

/-- Outcome of one iteration of the dispatcher loop of `Server::run`:
either the loop continues, or the thread panics (a `todo!()` was reached).
No constructor ends the loop normally: the source has no `break` or
`return`. -/
inductive StepOutcome where
  | next (st : ServerState) (events : List Event)
  | panic (st : ServerState) (events : List Event)
deriving DecidableEq, Repr

/-- The dispatcher state carried by an outcome. -/
def StepOutcome.state : StepOutcome → ServerState
  | .next st _ => st
  | .panic st _ => st

/-- The events emitted by an outcome. -/
def StepOutcome.events : StepOutcome → List Event
  | .next _ evs => evs
  | .panic _ evs => evs

namespace Server

/-- The `match message.content` block of the dispatcher loop
(src/server/src/server.rs:356-422).  `st2` is the state after
`insert_or_get_mut` and `client` the `ClientInfo` reference it returned. -/
def dispatch (st2 : ServerState) (client : ClientInfo) (now : Int)
    (wok : Stream → Bool) (msg : LocalMessage) : StepOutcome :=
  match msg.content with
  | .connectRequest stream =>
    match connectClient st2 wok msg.authorAddr stream with
    | (st3, evs, true) => .next st3 evs
    | (st3, evs, false) => .next st3 (evs ++ [.shutdown stream])
  | .disconnectRequest =>
    match disconnectClient st2 msg.authorAddr with
    | (st3, evs, _) => .next st3 evs
  | .banMe =>
    match banClient st2 now msg.authorAddr with
    | (st3, evs) => .next st3 evs
  | .bytes bs =>
    let bytesSafe := bs.filter (fun c => 32 ≤ c)
    if client.authTimestamp = none then
      match authenticateClient st2 now wok msg.authorAddr bytesSafe with
      | (st3, evs, true) => .next st3 evs
      | (st3, evs, false) =>
        match shutdownClient st3 msg.authorAddr (some .invalidToken) with
        | (st4, evs2) => .next st4 (evs ++ evs2)
    else
      if ¬ utf8Valid bytesSafe then .next st2 []
      else
        match msg.destination with
        | .server => .panic st2 []
        | .allClients =>
          .next st2 (broadcastMessage st2 msg.authorAddr bytesSafe)

/-- One iteration of the dispatcher loop of `Server::run`
(src/server/src/server.rs:324-425): receive, ban-filter, record the client
in `clients` via `insert_or_get_mut`, then dispatch on the content.  `now`
models `Utc::now()` during the iteration and `wok` the success of stream
writes. -/
def step (st : ServerState) (now : Int) (wok : Stream → Bool)
    (input : RecvResult) : StepOutcome :=
  match input with
  | .err => .next st []
  | .ok msg =>
    let bf := banFilter st now msg
    if bf.banned then .next bf.state bf.events
    else
      let st1 := bf.state
      let clientsCount := st1.clients.length
      let st2 := { st1 with
        clients := insertOrGet st1.clients msg.authorAddr (ClientInfo.new clientsCount) }
      let client := (lookup st2.clients msg.authorAddr).getD (ClientInfo.new clientsCount)
      dispatch st2 client now wok msg

end Server

/-- One dispatcher input: the `Utc::now()` instant of the iteration, the
write-success oracle, and what `recv` produced. -/
def runTrace (st : ServerState) : List (Int × (Stream → Bool) × RecvResult) → ServerState
  | [] => st
  | (now, wok, input) :: rest => runTrace (Server.step st now wok input).state rest

/-! ## Helper lemmas about the dispatcher -/

/-- Binding-and-id preservation between two states of the `clients`
registry: every stored address keeps a binding with the same id. -/
def preservesIds (cs cs' : List (SocketAddr × ClientInfo)) : Prop :=
  ∀ a ci, lookup cs a = some ci → ∃ ci', lookup cs' a = some ci' ∧ ci'.id = ci.id

theorem preservesIds_refl (cs : List (SocketAddr × ClientInfo)) : preservesIds cs cs :=
  fun _ ci h => ⟨ci, h, rfl⟩

theorem preservesIds_trans {cs cs' cs'' : List (SocketAddr × ClientInfo)}
    (h1 : preservesIds cs cs') (h2 : preservesIds cs' cs'') : preservesIds cs cs'' := by
  intro a ci h
  obtain ⟨ci', h', hid'⟩ := h1 a ci h
  obtain ⟨ci'', h'', hid''⟩ := h2 a ci' h'
  exact ⟨ci'', h'', by rw [hid'', hid']⟩

theorem preservesIds_insertOrGet (cs : List (SocketAddr × ClientInfo))
    (k : SocketAddr) (v : ClientInfo) : preservesIds cs (insertOrGet cs k v) := by
  intro a ci h
  by_cases ha : k = a
  · subst ha
    refine ⟨ci, ?_, rfl⟩
    rw [lookup_insertOrGet_self, h]
    rfl
  · exact ⟨ci, by rw [lookup_insertOrGet_ne cs k a v ha]; exact h, rfl⟩

theorem preservesIds_insertMap_reauth (cs : List (SocketAddr × ClientInfo))
    (addr : SocketAddr) (client : ClientInfo) (ts : Option Int)
    (hcl : lookup cs addr = some client) :
    preservesIds cs (insertMap cs addr ⟨client.id, ts⟩) := by
  intro a ci h
  by_cases ha : addr = a
  · refine ⟨⟨client.id, ts⟩, ?_, ?_⟩
    · rw [← ha]
      exact lookup_insertMap_self cs addr _
    · have hec : ci = client := by
        rw [← ha, hcl] at h
        exact (Option.some.inj h).symm
      rw [hec]
  · exact ⟨ci, by rw [lookup_insertMap_ne cs addr a _ ha]; exact h, rfl⟩

namespace Server

theorem banFilter_clients (st : ServerState) (now : Int) (msg : LocalMessage) :
    (banFilter st now msg).state.clients = st.clients := by
  unfold banFilter
  dsimp only
  repeat' split
  all_goals rfl

theorem banFilter_not_banned (st : ServerState) (now : Int) (msg : LocalMessage)
    (h : lookup st.banList msg.authorAddr.ip = none) :
    banFilter st now msg = ⟨st, [], false⟩ := by
  unfold banFilter
  dsimp only
  rw [h]

theorem connectClient_clients (st : ServerState) (wok : Stream → Bool)
    (addr : SocketAddr) (stream : Stream) :
    (connectClient st wok addr stream).1.clients = st.clients := by
  unfold connectClient
  repeat' split
  all_goals rfl

theorem disconnectClient_clients (st : ServerState) (addr : SocketAddr) :
    (disconnectClient st addr).1.clients = st.clients := by
  unfold disconnectClient
  repeat' split
  all_goals rfl

theorem shutdownClient_clients (st : ServerState) (addr : SocketAddr)
    (text : Option Notice) :
    (shutdownClient st addr text).1.clients = st.clients := by
  unfold shutdownClient
  repeat' split
  all_goals rfl

theorem banClient_clients (st : ServerState) (now : Int) (addr : SocketAddr) :
    (banClient st now addr).1.clients = st.clients := by
  unfold banClient
  dsimp only
  rw [shutdownClient_clients]

/-- `authenticate_client` leaves `clients` unchanged, or rebinds the
author's entry to one with the same `id` (setting `auth_timestamp`). -/
theorem authenticateClient_clients_cases (st : ServerState) (now : Int)
    (wok : Stream → Bool) (addr : SocketAddr) (bytesSafe : List Nat) :
    (authenticateClient st now wok addr bytesSafe).1.clients = st.clients ∨
    ∃ client, lookup st.clients addr = some client ∧
      (authenticateClient st now wok addr bytesSafe).1.clients
        = insertMap st.clients addr ⟨client.id, some now⟩ := by
  unfold authenticateClient
  by_cases h1 : bytesSafe.length ≠ 2 * TOKEN_LENGTH
  · rw [if_pos h1]
    exact Or.inl rfl
  rw [if_neg h1]
  by_cases h2 : ¬ utf8Valid bytesSafe
  · rw [if_pos h2]
    exact Or.inl rfl
  rw [if_neg h2]
  cases hdec : decodePairs bytesSafe with
  | error e =>
    exact Or.inl rfl
  | ok vs =>
    dsimp only
    by_cases htok : Token.mk vs = st.accessToken
    · rw [if_pos htok]
      cases hcl : lookup st.clients addr with
      | none => exact Or.inl rfl
      | some client =>
        dsimp only
        refine Or.inr ⟨client, rfl, ?_⟩
        cases hwl : lookup st.waitList addr with
        | none => rfl
        | some stream =>
          dsimp only
          by_cases hw : wok stream
          · rw [if_pos hw]
          · rw [if_neg hw]
    · rw [if_neg htok]
      exact Or.inl rfl

/-- Consequence: `authenticate_client` preserves every stored id and does
not change the registry size. -/
theorem authenticateClient_clients (st : ServerState) (now : Int) (wok : Stream → Bool)
    (addr : SocketAddr) (bytesSafe : List Nat) :
    preservesIds st.clients (authenticateClient st now wok addr bytesSafe).1.clients ∧
    (authenticateClient st now wok addr bytesSafe).1.clients.length
      = st.clients.length := by
  rcases authenticateClient_clients_cases st now wok addr bytesSafe with h | ⟨client, hcl, h⟩
  · rw [h]
    exact ⟨preservesIds_refl _, rfl⟩
  · rw [h]
    refine ⟨preservesIds_insertMap_reauth st.clients addr client _ hcl, ?_⟩
    rw [length_insertMap]
    have hck : containsKey st.clients addr = true := by
      unfold containsKey
      rw [hcl]
      rfl
    rw [if_pos hck]

/-- The content-dispatch block never removes a `clients` binding, never
changes a stored id, and never changes the registry size. -/
theorem dispatch_clients (st2 : ServerState) (client : ClientInfo) (now : Int)
    (wok : Stream → Bool) (msg : LocalMessage) :
    preservesIds st2.clients ((dispatch st2 client now wok msg).state.clients) ∧
    ((dispatch st2 client now wok msg).state.clients).length = st2.clients.length := by
  unfold dispatch
  cases hc : msg.content with
  | connectRequest stream =>
    dsimp only
    split
    all_goals rename_i st3 evs heq
    all_goals
      have h3 : st3.clients = st2.clients := by
        have hcc := connectClient_clients st2 wok msg.authorAddr stream
        rw [heq] at hcc
        exact hcc
    all_goals
      dsimp only [StepOutcome.state]
      rw [h3]
      exact ⟨preservesIds_refl _, rfl⟩
  | disconnectRequest =>
    dsimp only [StepOutcome.state]
    rw [disconnectClient_clients]
    exact ⟨preservesIds_refl _, rfl⟩
  | banMe =>
    dsimp only [StepOutcome.state]
    rw [banClient_clients]
    exact ⟨preservesIds_refl _, rfl⟩
  | bytes bs =>
    dsimp only
    split
    · -- authentication path
      split
      case _ st3 evs heq =>
        have hac := authenticateClient_clients st2 now wok msg.authorAddr
          (bs.filter (fun c => 32 ≤ c))
        rw [heq] at hac
        dsimp only [StepOutcome.state]
        exact hac
      case _ st3 evs heq =>
        have hac := authenticateClient_clients st2 now wok msg.authorAddr
          (bs.filter (fun c => 32 ≤ c))
        rw [heq] at hac
        dsimp only [StepOutcome.state]
        rw [shutdownClient_clients]
        exact hac
    · -- already authenticated
      split
      · exact ⟨preservesIds_refl _, rfl⟩
      · split
        all_goals exact ⟨preservesIds_refl _, rfl⟩

/-- Over one whole dispatcher iteration: every stored `(address, id)` pair
survives with the same id, and the registry size never shrinks. -/
theorem step_clients (st : ServerState) (now : Int) (wok : Stream → Bool)
    (input : RecvResult) :
    preservesIds st.clients ((step st now wok input).state.clients) ∧
    st.clients.length ≤ ((step st now wok input).state.clients).length := by
  cases input with
  | err => exact ⟨preservesIds_refl _, le_refl _⟩
  | ok msg =>
    unfold step
    dsimp only
    split
    · dsimp only [StepOutcome.state]
      rw [banFilter_clients]
      exact ⟨preservesIds_refl _, le_refl _⟩
    · have hd := dispatch_clients
        { (banFilter st now msg).state with
          clients := insertOrGet (banFilter st now msg).state.clients msg.authorAddr
            (ClientInfo.new (banFilter st now msg).state.clients.length) }
        ((lookup (insertOrGet (banFilter st now msg).state.clients msg.authorAddr
            (ClientInfo.new (banFilter st now msg).state.clients.length))
          msg.authorAddr).getD (ClientInfo.new (banFilter st now msg).state.clients.length))
        now wok msg
      refine ⟨?_, ?_⟩
      · refine preservesIds_trans ?_ hd.1
        have hb := banFilter_clients st now msg
        rw [hb]
        exact preservesIds_insertOrGet _ _ _
      · rw [hd.2]
        have hb := banFilter_clients st now msg
        rw [hb]
        exact length_le_insertOrGet _ _ _

/-- The content-dispatch block changes `clients` at most by rebinding the
author's entry to one with the same id (authentication setting
`auth_timestamp`). -/
theorem dispatch_clients_cases (st2 : ServerState) (client : ClientInfo) (now : Int)
    (wok : Stream → Bool) (msg : LocalMessage) :
    (dispatch st2 client now wok msg).state.clients = st2.clients ∨
    ∃ cl, lookup st2.clients msg.authorAddr = some cl ∧
      (dispatch st2 client now wok msg).state.clients
        = insertMap st2.clients msg.authorAddr ⟨cl.id, some now⟩ := by
  unfold dispatch
  cases hc : msg.content with
  | connectRequest stream =>
    dsimp only
    split
    all_goals rename_i st3 evs heq
    all_goals
      refine Or.inl ?_
    all_goals
      have hcc := connectClient_clients st2 wok msg.authorAddr stream
      rw [heq] at hcc
      exact hcc
  | disconnectRequest =>
    exact Or.inl (disconnectClient_clients st2 msg.authorAddr)
  | banMe =>
    exact Or.inl (banClient_clients st2 now msg.authorAddr)
  | bytes bs =>
    dsimp only
    split
    · split
      case _ st3 evs heq =>
        rcases authenticateClient_clients_cases st2 now wok msg.authorAddr
          (bs.filter (fun c => 32 ≤ c)) with hca | ⟨cl, hcl, hca⟩
        all_goals rw [heq] at hca
        · exact Or.inl hca
        · exact Or.inr ⟨cl, hcl, hca⟩
      case _ st3 evs heq =>
        rcases authenticateClient_clients_cases st2 now wok msg.authorAddr
          (bs.filter (fun c => 32 ≤ c)) with hca | ⟨cl, hcl, hca⟩
        all_goals rw [heq] at hca
        all_goals dsimp only [StepOutcome.state]
        all_goals rw [shutdownClient_clients]
        · exact Or.inl hca
        · exact Or.inr ⟨cl, hcl, hca⟩
    · split
      · exact Or.inl rfl
      · split
        all_goals exact Or.inl rfl

/-- The positional id invariant of the `clients` association list: the
entry at offset `k` from position `n` carries id `n + k`.  It holds for the
empty registry and, because ids are assigned as `clients.len()` at append
time and never changed afterwards, it is maintained by the dispatcher. -/
def idsFrom : List (SocketAddr × ClientInfo) → Nat → Prop
  | [], _ => True
  | p :: ps, n => p.2.id = n ∧ idsFrom ps (n + 1)

theorem idsFrom_lookup_ge : ∀ (cs : List (SocketAddr × ClientInfo)) (n : Nat)
    (a : SocketAddr) (ci : ClientInfo), idsFrom cs n → lookup cs a = some ci → n ≤ ci.id
  | [], _, _, _, _, h => by cases h
  | p :: ps, n, a, ci, hids, h => by
    rw [lookup_cons] at h
    by_cases hp : p.1 = a
    · rw [if_pos hp] at h
      have : p.2 = ci := Option.some.inj h
      rw [← this]
      exact le_of_eq hids.1.symm
    · rw [if_neg hp] at h
      have := idsFrom_lookup_ge ps (n + 1) a ci hids.2 h
      omega

theorem idsFrom_distinct : ∀ (cs : List (SocketAddr × ClientInfo)) (n : Nat),
    idsFrom cs n → ∀ a b ca cb, a ≠ b →
      lookup cs a = some ca → lookup cs b = some cb → ca.id ≠ cb.id
  | [], _, _, a, _, _, _, _, ha, _ => by cases ha
  | p :: ps, n, hids, a, b, ca, cb, hab, ha, hb => by
    rw [lookup_cons] at ha hb
    by_cases hpa : p.1 = a
    · rw [if_pos hpa] at ha
      have hca : p.2 = ca := Option.some.inj ha
      have hpb : ¬ p.1 = b := by rw [hpa]; exact hab
      rw [if_neg hpb] at hb
      have := idsFrom_lookup_ge ps (n + 1) b cb hids.2 hb
      rw [← hca, hids.1]
      omega
    · rw [if_neg hpa] at ha
      by_cases hpb : p.1 = b
      · rw [if_pos hpb] at hb
        have hcb : p.2 = cb := Option.some.inj hb
        have := idsFrom_lookup_ge ps (n + 1) a ca hids.2 ha
        rw [← hcb, hids.1]
        omega
      · rw [if_neg hpb] at hb
        exact idsFrom_distinct ps (n + 1) hids.2 a b ca cb hab ha hb

theorem idsFrom_append : ∀ (cs : List (SocketAddr × ClientInfo)) (n : Nat)
    (a : SocketAddr) (ci : ClientInfo), idsFrom cs n → ci.id = n + cs.length →
    idsFrom (cs ++ [(a, ci)]) n
  | [], n, a, ci, _, hid => ⟨by rw [hid]; rfl, trivial⟩
  | p :: ps, n, a, ci, hids, hid => by
    refine ⟨hids.1, ?_⟩
    exact idsFrom_append ps (n + 1) a ci hids.2 (by rw [hid]; simp only [List.length_cons]; omega)

theorem idsFrom_insertOrGet (cs : List (SocketAddr × ClientInfo)) (a : SocketAddr)
    (h : idsFrom cs 0) :
    idsFrom (insertOrGet cs a (ClientInfo.new cs.length)) 0 := by
  unfold insertOrGet
  split
  · exact h
  · exact idsFrom_append cs 0 a (ClientInfo.new cs.length) h
      (by show cs.length = 0 + cs.length; omega)

theorem idsFrom_insertMap : ∀ (cs : List (SocketAddr × ClientInfo)) (n : Nat)
    (a : SocketAddr) (cl : ClientInfo) (v : ClientInfo),
    lookup cs a = some cl → v.id = cl.id → idsFrom cs n → idsFrom (insertMap cs a v) n
  | [], _, _, _, _, hcl, _, _ => by cases hcl
  | p :: ps, n, a, cl, v, hcl, hvid, hids => by
    rw [lookup_cons] at hcl
    unfold insertMap
    by_cases hp : p.1 = a
    · rw [if_pos hp]
      rw [if_pos hp] at hcl
      have : p.2 = cl := Option.some.inj hcl
      exact ⟨by rw [hvid, ← this]; exact hids.1, hids.2⟩
    · rw [if_neg hp]
      rw [if_neg hp] at hcl
      exact ⟨hids.1, idsFrom_insertMap ps (n + 1) a cl v hcl hvid hids.2⟩

/-- One dispatcher iteration maintains the positional id invariant. -/
theorem step_idsFrom (st : ServerState) (now : Int) (wok : Stream → Bool)
    (input : RecvResult) (h : idsFrom st.clients 0) :
    idsFrom ((step st now wok input).state.clients) 0 := by
  cases input with
  | err => exact h
  | ok msg =>
    unfold step
    dsimp only
    split
    · dsimp only [StepOutcome.state]
      rw [banFilter_clients]
      exact h
    · have h2 : idsFrom (insertOrGet (banFilter st now msg).state.clients msg.authorAddr
          (ClientInfo.new (banFilter st now msg).state.clients.length)) 0 := by
        rw [banFilter_clients]
        exact idsFrom_insertOrGet st.clients msg.authorAddr h
      rcases dispatch_clients_cases
        { (banFilter st now msg).state with
          clients := insertOrGet (banFilter st now msg).state.clients msg.authorAddr
            (ClientInfo.new (banFilter st now msg).state.clients.length) }
        ((lookup (insertOrGet (banFilter st now msg).state.clients msg.authorAddr
            (ClientInfo.new (banFilter st now msg).state.clients.length))
          msg.authorAddr).getD (ClientInfo.new (banFilter st now msg).state.clients.length))
        now wok msg with hca | ⟨cl, hcl, hca⟩
      · rw [hca]
        exact h2
      · rw [hca]
        exact idsFrom_insertMap _ 0 msg.authorAddr cl _ hcl rfl h2

/-- After the ban filter admits a message from an address not yet in
`clients`, the iteration binds that address to id `clients.len()` read
before the insertion, and the binding survives the content dispatch. -/
theorem step_fresh_id (st : ServerState) (now : Int) (wok : Stream → Bool)
    (msg : LocalMessage) (hnb : (banFilter st now msg).banned = false)
    (hnew : lookup st.clients msg.authorAddr = none) :
    ∃ ci', lookup ((step st now wok (.ok msg)).state.clients) msg.authorAddr = some ci' ∧
      ci'.id = st.clients.length := by
  unfold step
  dsimp only
  rw [if_neg (by simp [hnb])]
  have hb := banFilter_clients st now msg
  have hlook : lookup (insertOrGet (banFilter st now msg).state.clients msg.authorAddr
      (ClientInfo.new (banFilter st now msg).state.clients.length)) msg.authorAddr
      = some (ClientInfo.new (banFilter st now msg).state.clients.length) := by
    apply lookup_insertOrGet_new
    rw [hb]
    exact hnew
  obtain ⟨ci', h', hid⟩ := (dispatch_clients
    { (banFilter st now msg).state with
      clients := insertOrGet (banFilter st now msg).state.clients msg.authorAddr
        (ClientInfo.new (banFilter st now msg).state.clients.length) }
    ((lookup (insertOrGet (banFilter st now msg).state.clients msg.authorAddr
        (ClientInfo.new (banFilter st now msg).state.clients.length))
      msg.authorAddr).getD (ClientInfo.new (banFilter st now msg).state.clients.length))
    now wok msg).1 msg.authorAddr _ hlook
  refine ⟨ci', h', ?_⟩
  rw [hid]
  show (banFilter st now msg).state.clients.length = st.clients.length
  rw [hb]

/-- When the author's IP is not banned, the author is a known authenticated
client and the sanitized body is valid UTF-8, the dispatcher iteration is a
pure broadcast: the state is unchanged and one framed write is attempted
per non-author connection, regardless of write successes. -/
theorem step_broadcast (st : ServerState) (now : Int) (wok : Stream → Bool)
    (a : SocketAddr) (ts : Int) (bs : List Nat) (ci : ClientInfo)
    (hban : lookup st.banList a.ip = none)
    (hci : lookup st.clients a = some ci)
    (hauth : ci.authTimestamp ≠ none)
    (hutf : utf8Valid (bs.filter (fun c => 32 ≤ c)) = true) :
    step st now wok (.ok ⟨a, .allClients, ts, .bytes bs⟩)
      = .next st ((st.conns.filter (fun p => p.1 ≠ a)).map
          (fun p => Event.writeUserFrame p.2 ci.id (bs.filter (fun c => 32 ≤ c)))) := by
  have hck : containsKey st.clients a = true := by
    unfold containsKey
    rw [hci]
    rfl
  unfold step
  dsimp only
  rw [banFilter_not_banned st now _ hban]
  dsimp only
  rw [if_neg (by simp)]
  rw [insertOrGet_of_mem st.clients a _ hck]
  unfold dispatch
  dsimp only
  rw [hci]
  dsimp only [Option.getD_some]
  rw [if_neg hauth]
  rw [if_neg (fun hn => hn hutf)]
  unfold broadcastMessage
  dsimp only
  rw [hci]

end Server

/-! ## Token codec lemmas -/

theorem hexVal_hexDigitUpper (n : Nat) (h : n < 16) : hexVal (hexDigitUpper n) = some n := by
  unfold hexVal hexDigitUpper
  by_cases h10 : n < 10
  · rw [if_pos h10, if_pos (by omega : 48 ≤ 48 + n ∧ 48 + n ≤ 57)]
    congr 1
    omega
  · rw [if_neg h10, if_neg (by omega : ¬(48 ≤ 55 + n ∧ 55 + n ≤ 57)),
      if_pos (by omega : 65 ≤ 55 + n ∧ 55 + n ≤ 70)]
    congr 1
    omega

theorem hexDigitUpper_ne_plus (n : Nat) : hexDigitUpper n ≠ 43 := by
  unfold hexDigitUpper
  split <;> omega

theorem hexDigitUpper_ascii (n : Nat) (h : n < 16) : hexDigitUpper n < 128 := by
  unfold hexDigitUpper
  split <;> omega

theorem fromStrRadix16Pair_roundtrip (b : Nat) (h : b < 256) :
    fromStrRadix16Pair (hexDigitUpper (b / 16)) (hexDigitUpper (b % 16)) = some b := by
  have h1 : b / 16 < 16 := by omega
  have h2 : b % 16 < 16 := Nat.mod_lt _ (by omega)
  unfold fromStrRadix16Pair
  rw [if_neg (hexDigitUpper_ne_plus _), hexVal_hexDigitUpper _ h1, hexVal_hexDigitUpper _ h2]
  dsimp only
  congr 1
  omega

/-- Unfolding equation of `decodePairs` on an even step. -/
theorem decodePairs_cons (b1 b2 : Nat) (rest : List Nat) :
    decodePairs (b1 :: b2 :: rest)
      = match fromStrRadix16Pair b1 b2 with
        | some v =>
          match decodePairs rest with
          | .ok vs => .ok (v :: vs)
          | .error e => .error e
        | none => .error .invalidDigit := rfl

theorem decodePairs_render (bs : List Nat) (h : ∀ b ∈ bs, b < 256) :
    decodePairs ((bs.map byteHex).flatten) = .ok bs := by
  induction bs with
  | nil => rfl
  | cons b rest ih =>
    have hb := h b (List.mem_cons_self b rest)
    rw [List.map_cons, List.flatten_cons]
    show decodePairs (hexDigitUpper (b / 16) :: hexDigitUpper (b % 16)
      :: (rest.map byteHex).flatten) = _
    rw [decodePairs_cons, fromStrRadix16Pair_roundtrip b hb,
      ih (fun x hx => h x (List.mem_cons_of_mem b hx))]

theorem getD2_shift (b1 b2 : Nat) (rest : List Nat) (i : Nat) :
    (b1 :: b2 :: rest).getD (2 * (i + 1)) 0 = rest.getD (2 * i) 0 ∧
    (b1 :: b2 :: rest).getD (2 * (i + 1) + 1) 0 = rest.getD (2 * i + 1) 0 := by
  have h1 : 2 * (i + 1) = 2 * i + 1 + 1 := by omega
  have h2 : 2 * (i + 1) + 1 = 2 * i + 1 + 1 + 1 := by omega
  constructor
  · rw [h1, List.getD_cons_succ, List.getD_cons_succ]
  · rw [h2, List.getD_cons_succ, List.getD_cons_succ]

/-- `decodePairs` never produces the format error: format checks happen
before the digit loop. -/
theorem decodePairs_no_format : ∀ s : List Nat, decodePairs s ≠ .error .invalidFormat
  | [] => by
    intro h
    exact Except.noConfusion h
  | [b] => by
    intro h
    injection h with h2
    cases h2
  | b1 :: b2 :: rest => by
    intro h
    rw [decodePairs_cons] at h
    cases hp : fromStrRadix16Pair b1 b2 with
    | none =>
      rw [hp] at h
      dsimp only at h
      injection h with h2
      cases h2
    | some v =>
      rw [hp] at h
      dsimp only at h
      cases hd : decodePairs rest with
      | ok vs =>
        rw [hd] at h
        exact Except.noConfusion h
      | error e =>
        rw [hd] at h
        dsimp only at h
        injection h with h2
        exact decodePairs_no_format rest (by rw [hd, h2])

/-- `decodePairs` fails exactly when some two-byte group fails
`from_str_radix`. -/
theorem decodePairs_error_iff : ∀ s : List Nat, s.length % 2 = 0 →
    ((∃ e, decodePairs s = .error e) ↔
      ∃ i, 2 * i + 1 < s.length ∧
        fromStrRadix16Pair (s.getD (2 * i) 0) (s.getD (2 * i + 1) 0) = none)
  | [], _ => by
    constructor
    · rintro ⟨e, he⟩
      exact Except.noConfusion he
    · rintro ⟨i, hi, _⟩
      simp at hi
  | [b], h => by simp at h
  | b1 :: b2 :: rest, h => by
    have heven : rest.length % 2 = 0 := by
      simp only [List.length_cons] at h
      omega
    have ih := decodePairs_error_iff rest heven
    constructor
    · rintro ⟨e, he⟩
      rw [decodePairs_cons] at he
      cases hp : fromStrRadix16Pair b1 b2 with
      | none =>
        refine ⟨0, by simp only [List.length_cons]; omega, ?_⟩
        simpa using hp
      | some v =>
        rw [hp] at he
        dsimp only at he
        cases hd : decodePairs rest with
        | ok vs =>
          rw [hd] at he
          exact Except.noConfusion he
        | error e2 =>
          obtain ⟨i, hi, hpair⟩ := ih.mp ⟨e2, hd⟩
          refine ⟨i + 1, by simp only [List.length_cons]; omega, ?_⟩
          rw [(getD2_shift b1 b2 rest i).1, (getD2_shift b1 b2 rest i).2]
          exact hpair
    · rintro ⟨i, hi, hpair⟩
      rw [decodePairs_cons]
      cases i with
      | zero =>
        have hp : fromStrRadix16Pair b1 b2 = none := by simpa using hpair
        rw [hp]
        exact ⟨.invalidDigit, rfl⟩
      | succ j =>
        cases hp : fromStrRadix16Pair b1 b2 with
        | none => exact ⟨.invalidDigit, rfl⟩
        | some v =>
          dsimp only
          have hrest : ∃ e, decodePairs rest = .error e := by
            apply ih.mpr
            refine ⟨j, by simp only [List.length_cons] at hi; omega, ?_⟩
            rw [← (getD2_shift b1 b2 rest j).1, ← (getD2_shift b1 b2 rest j).2]
            exact hpair
          obtain ⟨e, hd⟩ := hrest
          rw [hd]
          exact ⟨e, rfl⟩

/-- When every two-byte group decodes, `decodePairs` succeeds and returns
exactly the groupwise-decoded bytes. -/
theorem decodePairs_ok_spec : ∀ s : List Nat, s.length % 2 = 0 →
    (∀ i, 2 * i + 1 < s.length →
      (fromStrRadix16Pair (s.getD (2 * i) 0) (s.getD (2 * i + 1) 0)).isSome = true) →
    ∃ vs, decodePairs s = .ok vs ∧ 2 * vs.length = s.length ∧
      ∀ i, i < vs.length →
        some (vs.getD i 0) = fromStrRadix16Pair (s.getD (2 * i) 0) (s.getD (2 * i + 1) 0)
  | [], _, _ => ⟨[], rfl, rfl, fun i hi => absurd hi (by simp)⟩
  | [b], h, _ => by simp at h
  | b1 :: b2 :: rest, h, hall => by
    have heven : rest.length % 2 = 0 := by
      simp only [List.length_cons] at h
      omega
    have hp0 : (fromStrRadix16Pair b1 b2).isSome = true := by
      have hh := hall 0 (by simp only [List.length_cons]; omega)
      simpa using hh
    obtain ⟨v, hv⟩ := Option.isSome_iff_exists.mp hp0
    have hallrest : ∀ i, 2 * i + 1 < rest.length →
        (fromStrRadix16Pair (rest.getD (2 * i) 0) (rest.getD (2 * i + 1) 0)).isSome = true := by
      intro i hi
      have hh := hall (i + 1) (by simp only [List.length_cons]; omega)
      rw [(getD2_shift b1 b2 rest i).1, (getD2_shift b1 b2 rest i).2] at hh
      exact hh
    obtain ⟨vs, hd, hlen, hvals⟩ := decodePairs_ok_spec rest heven hallrest
    refine ⟨v :: vs, ?_, ?_, ?_⟩
    · rw [decodePairs_cons, hv, hd]
    · simp only [List.length_cons]
      omega
    · intro i hi
      cases i with
      | zero => simpa using hv.symm
      | succ j =>
        have hj : j < vs.length := by
          simp only [List.length_cons] at hi
          omega
        have hh := hvals j hj
        rw [(getD2_shift b1 b2 rest j).1, (getD2_shift b1 b2 rest j).2]
        simpa using hh

theorem render_length (bs : List Nat) :
    ((bs.map byteHex).flatten).length = 2 * bs.length := by
  induction bs with
  | nil => rfl
  | cons b rest ih =>
    rw [List.map_cons, List.flatten_cons, List.length_append, ih]
    show 2 + 2 * rest.length = 2 * (rest.length + 1)
    omega

theorem render_ascii (bs : List Nat) (h : ∀ b ∈ bs, b < 256) :
    ∀ x ∈ (bs.map byteHex).flatten, x < 128 := by
  intro x hx
  obtain ⟨l, hl, hxl⟩ := List.mem_flatten.mp hx
  obtain ⟨b, hb, hbl⟩ := List.mem_map.mp hl
  have hb2 := h b hb
  subst hbl
  unfold byteHex at hxl
  have hx2 : x = hexDigitUpper (b / 16) ∨ x = hexDigitUpper (b % 16) := by
    simpa using hxl
  rcases hx2 with h1 | h1
  · rw [h1]
    exact hexDigitUpper_ascii _ (by omega)
  · rw [h1]
    exact hexDigitUpper_ascii _ (Nat.mod_lt _ (by omega))

/-! ## Claim theorems -/

/-- C4: on a failed `recv` (closed channel) the dispatcher loop does NOT
exit: it logs and continues with an unchanged state and no side effect.
This contradicts the claim that channel-closure is fatal; together with the
absence of any loop-exiting outcome it shows the loop never terminates
normally at all. -/
theorem c4_recv_error_continues (st : ServerState) (now : Int) (wok : Stream → Bool) :
    Server.step st now wok .err = .next st [] := rfl

/-- C3 counterexample: a fifth over-cooldown message trips the ban branch,
which returns without updating `last_message_time`, contradicting the
claim that `last_message_time := now` is performed in both cases. -/
theorem c3_counterexample :
    (100 : Int) - 0 < MESSAGE_COOLDOWN_TIME_MS ∧
    rateLimiter ⟨0, 4⟩ 100 = (⟨0, 0⟩, true) ∧
    (rateLimiter ⟨0, 4⟩ 100).1.lastMessageTime ≠ 100 := by decide

/-- C3 amended: on each message, if `now - last_message_time < 300 ms`
strictly the strike count is incremented and, when it reaches 5, the worker
sends exactly one `Ban(Spamming)` request and stops its read loop — but
without updating `last_message_time` (the early return skips it); in the
non-ban strike case and in the reset case (`>= 300 ms`, including exactly
300 ms) `last_message_time := now`. -/
theorem c3_rate_limiter_amended (st : RateState) (now : Int) :
    (now - st.lastMessageTime < MESSAGE_COOLDOWN_TIME_MS →
      (st.strikeCount + 1 < MAX_STRIKE_COUNT →
        rateLimiter st now = (⟨now, st.strikeCount + 1⟩, false)) ∧
      (MAX_STRIKE_COUNT ≤ st.strikeCount + 1 →
        rateLimiter st now = (⟨st.lastMessageTime, 0⟩, true) ∧
        ∀ bytes, Client.runStep st now bytes
          = .stop ⟨st.lastMessageTime, 0⟩ [.ban .spamming])) ∧
    (MESSAGE_COOLDOWN_TIME_MS ≤ now - st.lastMessageTime →
      rateLimiter st now = (⟨now, 0⟩, false)) := by
  constructor
  · intro hcool
    constructor
    · intro hlt
      unfold rateLimiter
      rw [if_pos hcool, if_neg (by omega)]
    · intro hge
      have hrl : rateLimiter st now = (⟨st.lastMessageTime, 0⟩, true) := by
        unfold rateLimiter
        rw [if_pos hcool, if_pos hge]
      refine ⟨hrl, fun bytes => ?_⟩
      unfold Client.runStep
      rw [hrl]
  · intro hresp
    unfold rateLimiter
    rw [if_neg (by omega)]

/-- C3 witness: at concrete inputs, the three behaviours of the amended
rate limiter. -/
theorem c3_witness :
    rateLimiter ⟨0, 2⟩ 100 = (⟨100, 3⟩, false) ∧
    Client.runStep ⟨0, 4⟩ 100 [104] = .stop ⟨0, 0⟩ [.ban .spamming] ∧
    rateLimiter ⟨0, 4⟩ 300 = (⟨300, 0⟩, false) :=
  ⟨((c3_rate_limiter_amended ⟨0, 2⟩ 100).1 (by decide)).1 (by decide),
   (((c3_rate_limiter_amended ⟨0, 4⟩ 100).1 (by decide)).2 (by decide)).2 [104],
   (c3_rate_limiter_amended ⟨0, 4⟩ 300).2 (by decide)⟩

/-- C5: sanitization keeps exactly the bytes `>= 0x20` (in order), then
validates UTF-8; on failure only that message is dropped (no request is
sent) and the read loop continues; the bytes `1B 5B 32 4A 68 69`
("ESC[2J" + "hi") sanitize to exactly `"[2Jhi"`. -/
theorem c5_sanitization (bs : List Nat) :
    ((utf8Valid (bs.filter (fun c => 32 ≤ c)) = true →
        parseText bs = some (bs.filter (fun c => 32 ≤ c))) ∧
     (utf8Valid (bs.filter (fun c => 32 ≤ c)) = false →
        parseText bs = none ∧
        ∀ st now, (rateLimiter st now).2 = false → bs ≠ [] →
          Client.runStep st now bs = .next (rateLimiter st now).1 [])) ∧
    ((bs.filter (fun c => 32 ≤ c)).Sublist bs ∧
     ∀ b, b ∈ bs.filter (fun c => 32 ≤ c) ↔ (b ∈ bs ∧ 32 ≤ b)) ∧
    parseText [27, 91, 50, 74, 104, 105] = some [91, 50, 74, 104, 105] := by
  refine ⟨⟨?_, ?_⟩, ⟨List.filter_sublist bs, ?_⟩, by decide⟩
  · intro h
    unfold parseText
    rw [if_pos h]
  · intro h
    have hpt : parseText bs = none := by
      unfold parseText
      dsimp only
      rw [h]
      rfl
    refine ⟨hpt, fun st now hrl hne => ?_⟩
    unfold Client.runStep
    cases hr : rateLimiter st now with
    | mk st1 b =>
      rw [hr] at hrl
      dsimp only at hrl
      subst hrl
      dsimp only
      rw [if_neg (by rw [List.isEmpty_iff]; exact hne), hpt]
  · intro b
    rw [List.mem_filter]
    simp

/-- C5 witness: both branches at concrete inputs — an invalid-UTF-8 byte is
dropped, a plain ASCII byte goes through. -/
theorem c5_witness :
    parseText [255] = none ∧ parseText [72] = some [72] :=
  ⟨((c5_sanitization [255]).1.2 (by decide)).1,
   (c5_sanitization [72]).1.1 (by decide)⟩

/-- C6 counterexample: a non-empty all-control message (a single `ESC`
byte) sanitizes to the empty string, and the worker still sends a
`Broadcast("")` request — the message is NOT dropped at sanitization. -/
theorem c6_counterexample :
    ([27] : List Nat) ≠ [] ∧ (∀ b ∈ ([27] : List Nat), b < 32) ∧
    Client.runStep ⟨0, 0⟩ 1000 [27] = .next ⟨1000, 0⟩ [.broadcast []] := by decide

/-- C6 amended: a non-empty message consisting only of control bytes
sanitizes to the empty text, which is still handed on: the worker emits
`Broadcast("")`, and the dispatcher, for such a message from a connected
authenticated author, writes the (empty-bodied) user frame to every other
connection. -/
theorem c6_empty_broadcast_amended (bs : List Nat) (hne : bs ≠ [])
    (hctl : ∀ b ∈ bs, b < 32) :
    (∀ st now, (rateLimiter st now).2 = false →
      Client.runStep st now bs = .next (rateLimiter st now).1 [.broadcast []]) ∧
    (∀ st now wok a ts ci,
      lookup st.banList a.ip = none →
      lookup st.clients a = some ci →
      ci.authTimestamp ≠ none →
      Server.step st now wok (.ok ⟨a, .allClients, ts, .bytes bs⟩)
        = .next st ((st.conns.filter (fun p => p.1 ≠ a)).map
            (fun p => Event.writeUserFrame p.2 ci.id []))) := by
  have hfil : bs.filter (fun c => 32 ≤ c) = [] := by
    rw [List.filter_eq_nil_iff]
    intro b hb
    have := hctl b hb
    simp only [decide_eq_true_eq]
    omega
  have hpt : parseText bs = some [] := by
    unfold parseText
    rw [hfil]
    rfl
  constructor
  · intro st now hrl
    unfold Client.runStep
    cases hr : rateLimiter st now with
    | mk st1 b =>
      rw [hr] at hrl
      dsimp only at hrl
      subst hrl
      dsimp only
      rw [if_neg (by rw [List.isEmpty_iff]; exact hne), hpt]
  · intro st now wok a ts ci hban hci hauth
    have h := Server.step_broadcast st now wok a ts bs ci hban hci hauth
      (by rw [hfil]; rfl)
    rw [h, hfil]

/-- C7: for a sanitized broadcast from a connected authenticated author,
the dispatcher attempts exactly one framed write per `conns` entry whose
address differs from the author's and none derived from the author's own
entry; the outcome is independent of which writes succeed, and no entry is
removed from any registry (the state is unchanged). -/
theorem c7_broadcast_fanout (st : ServerState) (now : Int) (wok : Stream → Bool)
    (a : SocketAddr) (ts : Int) (bs : List Nat) (ci : ClientInfo)
    (hban : lookup st.banList a.ip = none)
    (hci : lookup st.clients a = some ci)
    (hauth : ci.authTimestamp ≠ none)
    (hutf : utf8Valid (bs.filter (fun c => 32 ≤ c)) = true) :
    Server.step st now wok (.ok ⟨a, .allClients, ts, .bytes bs⟩)
      = .next st ((st.conns.filter (fun p => p.1 ≠ a)).map
          (fun p => Event.writeUserFrame p.2 ci.id (bs.filter (fun c => 32 ≤ c)))) ∧
    (∀ p ∈ st.conns, p.1 ≠ a →
      Event.writeUserFrame p.2 ci.id (bs.filter (fun c => 32 ≤ c))
        ∈ (Server.step st now wok (.ok ⟨a, .allClients, ts, .bytes bs⟩)).events) ∧
    (∀ e ∈ (Server.step st now wok (.ok ⟨a, .allClients, ts, .bytes bs⟩)).events,
      ∃ p ∈ st.conns, p.1 ≠ a ∧
        e = Event.writeUserFrame p.2 ci.id (bs.filter (fun c => 32 ≤ c))) ∧
    (Server.step st now wok (.ok ⟨a, .allClients, ts, .bytes bs⟩)).state = st ∧
    (∀ wok', Server.step st now wok' (.ok ⟨a, .allClients, ts, .bytes bs⟩)
      = Server.step st now wok (.ok ⟨a, .allClients, ts, .bytes bs⟩)) := by
  have h := Server.step_broadcast st now wok a ts bs ci hban hci hauth hutf
  refine ⟨h, ?_, ?_, ?_, ?_⟩
  · intro p hp hne
    rw [h]
    dsimp only [StepOutcome.events]
    exact List.mem_map_of_mem _ (List.mem_filter.mpr ⟨hp, by simpa using hne⟩)
  · intro e he
    rw [h] at he
    dsimp only [StepOutcome.events] at he
    obtain ⟨p, hpf, hpe⟩ := List.mem_map.mp he
    obtain ⟨hpc, hpa⟩ := List.mem_filter.mp hpf
    exact ⟨p, hpc, by simpa using hpa, hpe.symm⟩
  · rw [h]
    rfl
  · intro wok'
    rw [h, Server.step_broadcast st now wok' a ts bs ci hban hci hauth hutf]

/-- C7 witness: a concrete three-client state; the oracle fails the write
to one peer, yet both non-author frames are attempted and the state keeps
all three entries. -/
theorem c7_witness :
    Server.step
      ⟨⟨[0,0,0,0,0,0,0,0]⟩, [],
        [(⟨10, 1000⟩, ⟨0, some 1⟩), (⟨11, 1001⟩, ⟨1, some 2⟩), (⟨12, 1002⟩, ⟨2, some 3⟩)],
        [(⟨10, 1000⟩, ⟨⟨10, 1000⟩, 0⟩), (⟨11, 1001⟩, ⟨⟨11, 1001⟩, 1⟩),
          (⟨12, 1002⟩, ⟨⟨12, 1002⟩, 2⟩)], []⟩
      5000 (fun s => s.sid ≠ 1) (.ok ⟨⟨10, 1000⟩, .allClients, 0, .bytes [104, 105]⟩)
      = .next
          ⟨⟨[0,0,0,0,0,0,0,0]⟩, [],
            [(⟨10, 1000⟩, ⟨0, some 1⟩), (⟨11, 1001⟩, ⟨1, some 2⟩), (⟨12, 1002⟩, ⟨2, some 3⟩)],
            [(⟨10, 1000⟩, ⟨⟨10, 1000⟩, 0⟩), (⟨11, 1001⟩, ⟨⟨11, 1001⟩, 1⟩),
              (⟨12, 1002⟩, ⟨⟨12, 1002⟩, 2⟩)], []⟩
          [.writeUserFrame ⟨⟨11, 1001⟩, 1⟩ 0 [104, 105],
           .writeUserFrame ⟨⟨12, 1002⟩, 2⟩ 0 [104, 105]] := by
  rw [(c7_broadcast_fanout _ 5000 (fun s => s.sid ≠ 1) ⟨10, 1000⟩ 0 [104, 105] ⟨0, some 1⟩
    (by decide) (by decide) (by decide) (by decide)).1]
  decide

/-- C6 witness: the amended behaviour at a concrete state — one `ESC`-only
message from an authenticated author produces an empty-bodied frame write
to the one other connection. -/
theorem c6_witness :
    Client.runStep ⟨0, 0⟩ 1000 [27, 7] = .next ⟨1000, 0⟩ [.broadcast []] ∧
    Server.step
      ⟨⟨[0,0,0,0,0,0,0,0]⟩, [], [(⟨10, 1000⟩, ⟨0, some 1⟩), (⟨11, 1001⟩, ⟨1, some 2⟩)],
        [(⟨10, 1000⟩, ⟨⟨10, 1000⟩, 0⟩), (⟨11, 1001⟩, ⟨⟨11, 1001⟩, 1⟩)], []⟩
      5000 (fun _ => true) (.ok ⟨⟨10, 1000⟩, .allClients, 0, .bytes [27, 7]⟩)
      = .next
          ⟨⟨[0,0,0,0,0,0,0,0]⟩, [], [(⟨10, 1000⟩, ⟨0, some 1⟩), (⟨11, 1001⟩, ⟨1, some 2⟩)],
            [(⟨10, 1000⟩, ⟨⟨10, 1000⟩, 0⟩), (⟨11, 1001⟩, ⟨⟨11, 1001⟩, 1⟩)], []⟩
          [.writeUserFrame ⟨⟨11, 1001⟩, 1⟩ 0 []] := by
  constructor
  · exact (c6_empty_broadcast_amended [27, 7] (by decide) (by decide)).1 ⟨0, 0⟩ 1000 (by decide)
  · rw [(c6_empty_broadcast_amended [27, 7] (by decide) (by decide)).2
      _ 5000 (fun _ => true) ⟨10, 1000⟩ 0 ⟨0, some 1⟩ (by decide) (by decide) (by decide)]
    decide

/-- C9: rendering any 8-byte token as its 16-character uppercase hex string
and parsing that string back yields the same token. -/
theorem c9_token_roundtrip (bs : List Nat) (hlen : bs.length = 8)
    (hbytes : ∀ b ∈ bs, b < 256) :
    Token.fromStr (Token.render ⟨bs⟩) = .ok ⟨bs⟩ := by
  unfold Token.fromStr Token.render
  have hascii : ((bs.map byteHex).flatten).all (fun b => b < 128) = true := by
    rw [List.all_eq_true]
    intro x hx
    exact decide_eq_true_eq.mpr (render_ascii bs hbytes x hx)
  rw [if_neg (fun hn => hn hascii),
    if_neg (by rw [render_length, hlen]; decide),
    decodePairs_render bs hbytes]

/-- C9 witness: the round-trip at a concrete token. -/
theorem c9_witness :
    Token.fromStr (Token.render ⟨[0, 1, 2, 3, 4, 5, 250, 255]⟩)
      = .ok ⟨[0, 1, 2, 3, 4, 5, 250, 255]⟩ :=
  c9_token_roundtrip [0, 1, 2, 3, 4, 5, 250, 255] (by decide) (by decide)

/-- The ASCII string `"+0+1+2+3+4+5+6+7"`: 16 ASCII bytes, none of whose
two-character groups is a pair of hex digits. -/
def plusTokenStr : List Nat := [43, 48, 43, 49, 43, 50, 43, 51, 43, 52, 43, 53, 43, 54, 43, 55]

/-- C8 counterexample: `"+0+1+2+3+4+5+6+7"` is ASCII of length 16 and its
groups (each is a plus sign followed by one digit, the plus sign is not a
hex digit) are not two-hex-digit pairs, so the claim requires
`InvalidTokenDigit` — yet `Token::from_str` succeeds, because
`u8::from_str_radix` accepts a leading plus sign. -/
theorem c8_counterexample :
    (∀ b ∈ plusTokenStr, b < 128) ∧ plusTokenStr.length = 16 ∧
    plusTokenStr.getD 0 0 = 43 ∧ hexVal 43 = none ∧
    Token.fromStr plusTokenStr = .ok ⟨[0, 1, 2, 3, 4, 5, 6, 7]⟩ := by decide

/-- C8 amended: `Token::from_str` is total; it fails with the format error
exactly when the input is non-ASCII or its byte length differs from 16; on
ASCII length-16 input it fails with the digit error exactly when some
2-character group fails `u8::from_str_radix` (which accepts either two hex
digits or a plus sign followed by one hex digit), and otherwise succeeds
with the 8 groupwise-decoded bytes. -/
theorem c8_from_str_amended (s : List Nat) :
    (Token.fromStr s = .error .invalidFormat ↔ ¬ (∀ b ∈ s, b < 128) ∨ s.length ≠ 16) ∧
    ((∀ b ∈ s, b < 128) → s.length = 16 →
      ((Token.fromStr s = .error .invalidDigit ↔
        ∃ i, i < 8 ∧ fromStrRadix16Pair (s.getD (2 * i) 0) (s.getD (2 * i + 1) 0) = none) ∧
       ((∀ i, i < 8 →
          (fromStrRadix16Pair (s.getD (2 * i) 0) (s.getD (2 * i + 1) 0)).isSome = true) →
        ∃ vs, Token.fromStr s = .ok ⟨vs⟩ ∧ vs.length = 8 ∧
          ∀ i, i < 8 →
            some (vs.getD i 0)
              = fromStrRadix16Pair (s.getD (2 * i) 0) (s.getD (2 * i + 1) 0)))) := by
  have hiff : s.all (fun b => b < 128) = true ↔ ∀ b ∈ s, b < 128 := by
    rw [List.all_eq_true]
    constructor
    · intro hh b hb
      exact decide_eq_true_eq.mp (hh b hb)
    · intro hh b hb
      exact decide_eq_true_eq.mpr (hh b hb)
  constructor
  · by_cases hall : s.all (fun b => b < 128) = true
    · by_cases hlen : s.length = 16
      · have hfr : Token.fromStr s
            = match decodePairs s with
              | .ok vs => .ok ⟨vs⟩
              | .error e => .error e := by
          unfold Token.fromStr
          rw [if_neg (fun hn => hn hall), if_neg (by simp [hlen, TOKEN_LENGTH])]
        apply iff_of_false
        · rw [hfr]
          cases hd : decodePairs s with
          | ok vs =>
            intro hh
            exact Except.noConfusion hh
          | error e =>
            intro hh
            injection hh with h2
            exact decodePairs_no_format s (by rw [hd, h2])
        · intro hh
          rcases hh with hh | hh
          · exact hh (hiff.mp hall)
          · exact hh hlen
      · apply iff_of_true
        · unfold Token.fromStr
          rw [if_neg (fun hn => hn hall), if_pos (by simpa [TOKEN_LENGTH] using hlen)]
        · exact Or.inr hlen
    · apply iff_of_true
      · unfold Token.fromStr
        rw [if_pos hall]
      · exact Or.inl (fun hh => hall (hiff.mpr hh))
  · intro hb hlen
    have hall : s.all (fun b => b < 128) = true := hiff.mpr hb
    have hfr : Token.fromStr s
        = match decodePairs s with
          | .ok vs => .ok ⟨vs⟩
          | .error e => .error e := by
      unfold Token.fromStr
      rw [if_neg (fun hn => hn hall), if_neg (by simp [hlen, TOKEN_LENGTH])]
    have heven : s.length % 2 = 0 := by
      rw [hlen]
    have herr := decodePairs_error_iff s heven
    constructor
    · constructor
      · intro hh
        rw [hfr] at hh
        have hde : ∃ e, decodePairs s = .error e := by
          cases hd : decodePairs s with
          | ok vs =>
            rw [hd] at hh
            exact Except.noConfusion hh
          | error e => exact ⟨e, rfl⟩
        obtain ⟨i, hi, hpair⟩ := herr.mp hde
        rw [hlen] at hi
        exact ⟨i, by omega, hpair⟩
      · rintro ⟨i, hi, hpair⟩
        obtain ⟨e, hd⟩ := herr.mpr ⟨i, by rw [hlen]; omega, hpair⟩
        have hef : e ≠ .invalidFormat := fun hx => decodePairs_no_format s (hx ▸ hd)
        have he : e = .invalidDigit := by
          cases e with
          | invalidFormat => exact absurd rfl hef
          | invalidDigit => rfl
        rw [hfr, hd, he]
    · intro hall2
      have hallp : ∀ i, 2 * i + 1 < s.length →
          (fromStrRadix16Pair (s.getD (2 * i) 0) (s.getD (2 * i + 1) 0)).isSome = true := by
        intro i hi
        rw [hlen] at hi
        exact hall2 i (by omega)
      obtain ⟨vs, hd, hvslen, hvals⟩ := decodePairs_ok_spec s heven hallp
      rw [hlen] at hvslen
      refine ⟨vs, by rw [hfr, hd], by omega, ?_⟩
      intro i hi
      exact hvals i (by omega)

/-- C8 witness: each classification at a concrete input — a non-ASCII
byte string, a 16-byte ASCII string with one non-hex group, and the
canonical all-hex string. -/
theorem c8_witness :
    Token.fromStr [200] = .error .invalidFormat ∧
    Token.fromStr [48, 49, 50, 51, 52, 53, 54, 55, 56, 57, 65, 66, 67, 68, 69, 71]
      = .error .invalidDigit ∧
    (∃ vs, Token.fromStr [48, 49, 50, 51, 52, 53, 54, 55, 56, 57, 65, 66, 67, 68, 69, 70]
      = .ok ⟨vs⟩ ∧ vs.length = 8 ∧
      ∀ i, i < 8 →
        some (vs.getD i 0)
          = fromStrRadix16Pair
              (([48, 49, 50, 51, 52, 53, 54, 55, 56, 57, 65, 66, 67, 68, 69, 70] : List Nat).getD (2 * i) 0)
              (([48, 49, 50, 51, 52, 53, 54, 55, 56, 57, 65, 66, 67, 68, 69, 70] : List Nat).getD (2 * i + 1) 0)) :=
  ⟨(c8_from_str_amended [200]).1.mpr (Or.inr (by decide)),
   ((c8_from_str_amended [48, 49, 50, 51, 52, 53, 54, 55, 56, 57, 65, 66, 67, 68, 69, 71]).2
      (by decide) (by decide)).1.mpr ⟨7, by decide, by decide⟩,
   ((c8_from_str_amended [48, 49, 50, 51, 52, 53, 54, 55, 56, 57, 65, 66, 67, 68, 69, 70]).2
      (by decide) (by decide)).2 (by decide)⟩

/-- C1 counterexample: the very first admitted `Connect` (empty registry)
is assigned id `0`, not `clients.len() + 1 = 1` — the code passes
`clients_count = self.clients.len()` to `ClientInfo::new`, and `0` is
exactly the id the spec reserves for the server. -/
theorem c1_counterexample :
    lookup ((Server.step ⟨⟨[0, 0, 0, 0, 0, 0, 0, 0]⟩, [], [], [], []⟩ 5000 (fun _ => true)
        (.ok ⟨⟨10, 1000⟩, .allClients, 0,
          .connectRequest ⟨⟨10, 1000⟩, 0⟩⟩)).state.clients) ⟨10, 1000⟩
      = some ⟨0, none⟩ ∧
    (0 : Nat) ≠ ([] : List (SocketAddr × ClientInfo)).length + 1 := by decide

/-- C1 amended: an admitted request from an address not in the registry
creates an entry with id equal to `clients.len()` read immediately before
the insertion (so the very first client receives id `0`, coinciding with
the reserved server id); under the positional invariant (which holds for
the empty initial registry and is preserved by every iteration) all stored
ids are pairwise distinct; and the registry size never decreases. -/
theorem c1_id_assignment_amended (st : ServerState) (now : Int) (wok : Stream → Bool) :
    (∀ msg, (Server.banFilter st now msg).banned = false →
      lookup st.clients msg.authorAddr = none →
      ∃ ci', lookup ((Server.step st now wok (.ok msg)).state.clients) msg.authorAddr
          = some ci' ∧ ci'.id = st.clients.length) ∧
    (∀ input, Server.idsFrom st.clients 0 →
      Server.idsFrom ((Server.step st now wok input).state.clients) 0) ∧
    (Server.idsFrom st.clients 0 →
      ∀ a b ca cb, a ≠ b → lookup st.clients a = some ca →
        lookup st.clients b = some cb → ca.id ≠ cb.id) ∧
    Server.idsFrom ([] : List (SocketAddr × ClientInfo)) 0 ∧
    (∀ input, st.clients.length ≤ ((Server.step st now wok input).state.clients).length) := by
  refine ⟨?_, ?_, ?_, trivial, ?_⟩
  · intro msg hnb hnew
    exact Server.step_fresh_id st now wok msg hnb hnew
  · intro input h
    exact Server.step_idsFrom st now wok input h
  · intro h a b ca cb hab ha hb
    exact Server.idsFrom_distinct st.clients 0 h a b ca cb hab ha hb
  · intro input
    exact (Server.step_clients st now wok input).2

/-- C1 witness: at the concrete empty-registry state, a first `Connect` is
admitted and bound to id `0 = clients.len()`. -/
theorem c1_witness :
    ∃ ci', lookup ((Server.step ⟨⟨[0, 0, 0, 0, 0, 0, 0, 0]⟩, [], [], [], []⟩ 5000
        (fun _ => true) (.ok ⟨⟨11, 1001⟩, .allClients, 0,
          .connectRequest ⟨⟨11, 1001⟩, 1⟩⟩)).state.clients) ⟨11, 1001⟩
      = some ci' ∧ ci'.id = 0 :=
  (c1_id_assignment_amended ⟨⟨[0, 0, 0, 0, 0, 0, 0, 0]⟩, [], [], [], []⟩ 5000
    (fun _ => true)).1 ⟨⟨11, 1001⟩, .allClients, 0, .connectRequest ⟨⟨11, 1001⟩, 1⟩⟩
    (by decide) (by decide)

/-- C10: no dispatcher operation removes an entry of the id-bearing
`clients` registry — over any single iteration and over any run of the
loop, every stored address keeps a binding with its original id (so a
reconnecting address keeps the id it was first assigned), and the registry
size never decreases. -/
theorem c10_registry_monotone :
    (∀ st now wok input, ∀ a ci, lookup st.clients a = some ci →
      ∃ ci', lookup ((Server.step st now wok input).state.clients) a = some ci' ∧
        ci'.id = ci.id) ∧
    (∀ st now wok input,
      st.clients.length ≤ ((Server.step st now wok input).state.clients).length) ∧
    (∀ st trace a ci, lookup st.clients a = some ci →
      ∃ ci', lookup (runTrace st trace).clients a = some ci' ∧ ci'.id = ci.id) := by
  refine ⟨?_, ?_, ?_⟩
  · intro st now wok input
    exact (Server.step_clients st now wok input).1
  · intro st now wok input
    exact (Server.step_clients st now wok input).2
  · intro st trace
    induction trace generalizing st with
    | nil =>
      intro a ci h
      exact ⟨ci, h, rfl⟩
    | cons e rest ih =>
      intro a ci h
      obtain ⟨now, wok, input⟩ := e
      obtain ⟨ci', h', hid'⟩ := (Server.step_clients st now wok input).1 a ci h
      obtain ⟨ci'', h'', hid''⟩ := ih (Server.step st now wok input).state a ci' h'
      exact ⟨ci'', h'', by rw [hid'', hid']⟩

/-- C10 witness: a concrete address that connects (id 0), disconnects, and
survives further traffic keeps id 0 across the whole trace. -/
theorem c10_witness :
    ∃ ci', lookup (runTrace
        ⟨⟨[0, 0, 0, 0, 0, 0, 0, 0]⟩, [], [(⟨10, 1000⟩, ⟨0, some 1⟩)],
          [(⟨10, 1000⟩, ⟨⟨10, 1000⟩, 0⟩)], []⟩
        [(2000, fun _ => true, .ok ⟨⟨10, 1000⟩, .allClients, 0, .disconnectRequest⟩),
         (3000, fun _ => true, .ok ⟨⟨11, 1001⟩, .allClients, 0,
            .connectRequest ⟨⟨11, 1001⟩, 5⟩⟩),
         (4000, fun _ => true, .ok ⟨⟨10, 1000⟩, .allClients, 0,
            .connectRequest ⟨⟨10, 1000⟩, 6⟩⟩)]).clients ⟨10, 1000⟩
      = some ci' ∧ ci'.id = 0 :=
  c10_registry_monotone.2.2
    ⟨⟨[0, 0, 0, 0, 0, 0, 0, 0]⟩, [], [(⟨10, 1000⟩, ⟨0, some 1⟩)],
      [(⟨10, 1000⟩, ⟨⟨10, 1000⟩, 0⟩)], []⟩
    [(2000, fun _ => true, .ok ⟨⟨10, 1000⟩, .allClients, 0, .disconnectRequest⟩),
     (3000, fun _ => true, .ok ⟨⟨11, 1001⟩, .allClients, 0,
        .connectRequest ⟨⟨11, 1001⟩, 5⟩⟩),
     (4000, fun _ => true, .ok ⟨⟨10, 1000⟩, .allClients, 0,
        .connectRequest ⟨⟨10, 1000⟩, 6⟩⟩)]
    ⟨10, 1000⟩ ⟨0, some 1⟩ (by decide)

/-- C2 counterexample: a Connect from a banned IP arriving 299.5 s after
the ban — strictly inside the window `[banned_at, banned_at + 300 s)`, with
0.5 s > 0 remaining — is NOT dropped: `num_seconds` truncates the remaining
time to 0 whole seconds, so the entry is removed, the client is inserted
into the registry and the token challenge is written. -/
theorem c2_counterexample :
    (299500 : Int) - 0 < TOTAL_BAN_TIME_MS ∧
    Server.step ⟨⟨[0, 0, 0, 0, 0, 0, 0, 0]⟩, [(10, 0)], [], [], []⟩ 299500 (fun _ => true)
        (.ok ⟨⟨10, 1000⟩, .allClients, 0, .connectRequest ⟨⟨10, 1000⟩, 0⟩⟩)
      = .next ⟨⟨[0, 0, 0, 0, 0, 0, 0, 0]⟩, [], [(⟨10, 1000⟩, ⟨0, none⟩)], [],
          [(⟨10, 1000⟩, ⟨⟨10, 1000⟩, 0⟩)]⟩
          [.writeTokenChallenge ⟨⟨10, 1000⟩, 0⟩] := by decide

/-- C2 amended: for a request from an IP in `ban_list`, the code is banned
iff the truncated whole-second remainder `num_seconds(banned_at + 300 s -
now)` is strictly positive, i.e. iff at least one full second remains.
While banned the request is dropped with no insertion anywhere: an
already-connected peer is removed from `conns`, notified and shut down;
otherwise a Connect's carried stream is notified and shut down; any other
request is silently dropped.  Once less than one full second remains
(including exactly at 300 s elapsed) the ban entry is removed and the
request proceeds through the normal dispatch, ending with the author
registered in `clients`. -/
theorem c2_ban_filter_amended (st : ServerState) (now : Int) (wok : Stream → Bool)
    (msg : LocalMessage) (bannedAt : Int)
    (hb : lookup st.banList msg.authorAddr.ip = some bannedAt) :
    (0 < numSeconds (bannedAt + TOTAL_BAN_TIME_MS - now) ↔
      1000 ≤ bannedAt + TOTAL_BAN_TIME_MS - now) ∧
    (1000 ≤ bannedAt + TOTAL_BAN_TIME_MS - now →
      (∀ stream, lookup st.conns msg.authorAddr = some stream →
        Server.step st now wok (.ok msg)
          = .next { st with conns := eraseKey st.conns msg.authorAddr }
              [.writeBannedNotice stream (numSeconds (bannedAt + TOTAL_BAN_TIME_MS - now)),
               .shutdown stream]) ∧
      (lookup st.conns msg.authorAddr = none →
        (∀ stream, msg.content = .connectRequest stream →
          Server.step st now wok (.ok msg)
            = .next st
                [.writeBannedNotice stream (numSeconds (bannedAt + TOTAL_BAN_TIME_MS - now)),
                 .shutdown stream]) ∧
        ((∀ stream, msg.content ≠ .connectRequest stream) →
          Server.step st now wok (.ok msg) = .next st []))) ∧
    (bannedAt + TOTAL_BAN_TIME_MS - now < 1000 →
      Server.step st now wok (.ok msg)
        = Server.dispatch
            { st with
              banList := eraseKey st.banList msg.authorAddr.ip
              clients := insertOrGet st.clients msg.authorAddr
                (ClientInfo.new st.clients.length) }
            ((lookup (insertOrGet st.clients msg.authorAddr
                (ClientInfo.new st.clients.length)) msg.authorAddr).getD
              (ClientInfo.new st.clients.length))
            now wok msg ∧
      containsKey ((Server.step st now wok (.ok msg)).state.clients) msg.authorAddr
        = true) := by
  refine ⟨numSeconds_pos_iff _, ?_, ?_⟩
  · intro hrem
    have hpos : 0 < numSeconds (bannedAt + TOTAL_BAN_TIME_MS - now) :=
      (numSeconds_pos_iff _).mpr hrem
    constructor
    · intro stream hconn
      have hbf : Server.banFilter st now msg
          = ⟨{ st with conns := eraseKey st.conns msg.authorAddr },
             [.writeBannedNotice stream (numSeconds (bannedAt + TOTAL_BAN_TIME_MS - now)),
              .shutdown stream], true⟩ := by
        unfold Server.banFilter
        dsimp only
        rw [hb]
        dsimp only
        rw [if_pos hpos, hconn]
      unfold Server.step
      dsimp only
      rw [hbf]
      rfl
    · intro hnc
      constructor
      · intro stream hcontent
        have hbf : Server.banFilter st now msg
            = ⟨st,
               [.writeBannedNotice stream (numSeconds (bannedAt + TOTAL_BAN_TIME_MS - now)),
                .shutdown stream], true⟩ := by
          unfold Server.banFilter
          dsimp only
          rw [hb]
          dsimp only
          rw [if_pos hpos, hnc]
          dsimp only
          rw [hcontent]
        unfold Server.step
        dsimp only
        rw [hbf]
        rfl
      · intro hncr
        have hbf : Server.banFilter st now msg = ⟨st, [], true⟩ := by
          unfold Server.banFilter
          dsimp only
          rw [hb]
          dsimp only
          rw [if_pos hpos, hnc]
          cases hc : msg.content with
          | connectRequest stream => exact absurd hc (hncr stream)
          | disconnectRequest => rfl
          | banMe => rfl
          | bytes bs => rfl
        unfold Server.step
        dsimp only
        rw [hbf]
        rfl
  · intro hrem
    have hneg : ¬ 0 < numSeconds (bannedAt + TOTAL_BAN_TIME_MS - now) := by
      rw [numSeconds_pos_iff]
      omega
    have hbf : Server.banFilter st now msg
        = ⟨{ st with banList := eraseKey st.banList msg.authorAddr.ip }, [], false⟩ := by
      unfold Server.banFilter
      dsimp only
      rw [hb]
      dsimp only
      rw [if_neg hneg]
    have hstep : Server.step st now wok (.ok msg)
        = Server.dispatch
            { st with
              banList := eraseKey st.banList msg.authorAddr.ip
              clients := insertOrGet st.clients msg.authorAddr
                (ClientInfo.new st.clients.length) }
            ((lookup (insertOrGet st.clients msg.authorAddr
                (ClientInfo.new st.clients.length)) msg.authorAddr).getD
              (ClientInfo.new st.clients.length))
            now wok msg := by
      unfold Server.step
      dsimp only
      rw [hbf]
      rfl
    refine ⟨hstep, ?_⟩
    rw [hstep]
    have hlook : lookup (insertOrGet st.clients msg.authorAddr
        (ClientInfo.new st.clients.length)) msg.authorAddr
        = some ((lookup st.clients msg.authorAddr).getD (ClientInfo.new st.clients.length)) :=
      lookup_insertOrGet_self st.clients msg.authorAddr (ClientInfo.new st.clients.length)
    obtain ⟨ci', h', _⟩ := (Server.dispatch_clients
      { st with
        banList := eraseKey st.banList msg.authorAddr.ip
        clients := insertOrGet st.clients msg.authorAddr
          (ClientInfo.new st.clients.length) }
      ((lookup (insertOrGet st.clients msg.authorAddr
          (ClientInfo.new st.clients.length)) msg.authorAddr).getD
        (ClientInfo.new st.clients.length))
      now wok msg).1 msg.authorAddr _ hlook
    unfold containsKey
    rw [h']
    rfl

/-- C2 witness: for a banned, currently-connected IP with 10.5 s of the
window remaining, a request is dropped (the peer is removed from `conns`,
notified with 10 whole seconds, and shut down); for a Connect with the
window just passed, the ban entry is removed and the client proceeds into
`clients`. -/
theorem c2_witness :
    Server.step ⟨⟨[0, 0, 0, 0, 0, 0, 0, 0]⟩, [(10, 0)], [(⟨10, 1000⟩, ⟨0, some 1⟩)],
        [(⟨10, 1000⟩, ⟨⟨10, 1000⟩, 0⟩)], []⟩ 289500 (fun _ => true)
        (.ok ⟨⟨10, 1000⟩, .allClients, 0, .bytes [104]⟩)
      = .next ⟨⟨[0, 0, 0, 0, 0, 0, 0, 0]⟩, [(10, 0)], [(⟨10, 1000⟩, ⟨0, some 1⟩)], [], []⟩
          [.writeBannedNotice ⟨⟨10, 1000⟩, 0⟩ 10, .shutdown ⟨⟨10, 1000⟩, 0⟩] ∧
    containsKey ((Server.step ⟨⟨[0, 0, 0, 0, 0, 0, 0, 0]⟩, [(10, 0)], [], [], []⟩ 300000
        (fun _ => true) (.ok ⟨⟨10, 1000⟩, .allClients, 0,
          .connectRequest ⟨⟨10, 1000⟩, 0⟩⟩)).state.clients) ⟨10, 1000⟩ = true := by
  constructor
  · have h := ((c2_ban_filter_amended
      ⟨⟨[0, 0, 0, 0, 0, 0, 0, 0]⟩, [(10, 0)], [(⟨10, 1000⟩, ⟨0, some 1⟩)],
        [(⟨10, 1000⟩, ⟨⟨10, 1000⟩, 0⟩)], []⟩ 289500 (fun _ => true)
      ⟨⟨10, 1000⟩, .allClients, 0, .bytes [104]⟩ 0 (by decide)).2.1
      (by decide)).1 ⟨⟨10, 1000⟩, 0⟩ (by decide)
    rw [h]
    decide
  · exact ((c2_ban_filter_amended ⟨⟨[0, 0, 0, 0, 0, 0, 0, 0]⟩, [(10, 0)], [], [], []⟩
      300000 (fun _ => true) ⟨⟨10, 1000⟩, .allClients, 0,
        .connectRequest ⟨⟨10, 1000⟩, 0⟩⟩ 0 (by decide)).2.2 (by decide)).2

end ChatApp
